import Mathlib

/-!
Verification of the sparseth sparse verifying light node against its
specification.

The development shallowly embeds the Go source of the repository:

* `Event` — the event-mode hash-chain log verifier
  (`execution/monitor/event`, `Verifier.VerifyLogs`).
* `EthClient` — the verified transaction provider
  (`execution/ethclient/tx_provider.go`, `txProvider.getTxsAtBlock`).
* `StateDb` — the journaled reverting state database
  (`execution/monitor/state/reverting_db.go`, `journal.go`) and the sparse
  transaction processor (`execution/monitor/state/processor.go`,
  `TxProcessor.ProcessBlock`).
* `Tracing` — the read/write tracer of the transient tracing state database
  (`execution/monitor/state/database.go`, `tracer.go`).
* `Preparer` — the relevance filter (`execution/monitor/state/preparer.go`,
  `Preparer.FilterTxs`).
* `Mpt` — the Merkle-Patricia proof verifier (`execution/mpt/proof.go`,
  `execution/mpt/trienode`).
* `EthStore` — the typed store key schema (`ethstore/schema.go`,
  `ethstore/event_store.go`).
* `MemDb` — the in-memory key-value store (`storage/mem/memdb.go`,
  `storage.CopyBytes`).

Machine bytes are modelled as natural numbers, byte slices as `List Nat`,
hashes and addresses as `Nat` where only their identity matters. The
go-ethereum library primitives that the code calls (keccak256, ABI
packing, RLP encoding of whole transactions, the inner `state.StateDB`)
are at the library boundary: they are taken as explicit parameters or
modelled by pure total functions, as noted at each definition.
-/

namespace Event

/-- A 32-byte hash, identified by its value. -/
abbrev H256 := Nat

/-- Failure cases of `Verifier.computeNewHead` (`execution/ethclient/types.go`,
second document: the event verifier): a log without a signature topic, an
event id that the loaded ABI does not know, an ABI decode failure of the
non-indexed data, a count mismatch of the non-indexed values, a topic count
mismatch, or an ABI packing failure. -/
inductive StepErr
  | noId
  | unknownEventId
  | unpackFailed
  | nonIndexedMismatch
  | topicCountMismatch
  | packFailed
deriving DecidableEq

/-- Failure cases of `Verifier.VerifyLogs`: a failing per-log step, or a
final head mismatch. -/
inductive VerifyLogsErr
  | stepFailed (e : StepErr)
  | headMismatch
deriving DecidableEq

/-- The event-mode verifier. The Go `Verifier` holds the contract ABI and the
current hash chain head; `computeNewHead` is fully determined by the ABI
(it looks up the event by `topics[0]`, ABI-decodes the data, interleaves
topics and values behind the previous head, ABI-packs and applies keccak256).
ABI handling and keccak are the go-ethereum library boundary, so the
per-log step is carried as a function field. -/
structure Verifier (Log : Type) where
  computeNewHead : H256 → Log → Except StepErr H256
  head : H256

/-- The loop body of `VerifyLogs`: starting from `curr`, fold
`computeNewHead` over the logs in order, stopping at the first error. -/
def foldHeads (step : H256 → Log → Except StepErr H256) :
    H256 → List Log → Except StepErr H256
  | curr, [] => .ok curr
  | curr, l :: ls =>
    match step curr l with
    | .error e => .error e
    | .ok next => foldHeads step next ls

/-- `Verifier.VerifyLogs` (`execution/ethclient/types.go`, second document,
lines 140-156): rolls the stored head through every log in order; on any
per-log failure returns that error with the verifier unchanged; compares the
final computed head with the expected head, rejecting on mismatch with the
verifier unchanged; on success stores the computed head. -/
def Verifier.verifyLogs (v : Verifier Log) (logs : List Log) (expected : H256) :
    Except VerifyLogsErr Unit × Verifier Log :=
  match foldHeads v.computeNewHead v.head logs with
  | .error e => (.error (.stepFailed e), v)
  | .ok curr =>
    if curr = expected then (.ok (), { v with head := curr })
    else (.error .headMismatch, v)

/-- Decide whether an `Except` result is a success. -/
def isOk : Except ε α → Bool
  | .ok _ => true
  | .error _ => false

end Event

namespace EthClient

/-- A block header, restricted to the fields `txProvider.getTxsAtBlock`
consults: the transaction root commitment. -/
structure Header where
  txHash : Nat
deriving DecidableEq

/-- `TransactionWithIndex` (`execution/ethclient/types.go`): a transaction
paired with its index in the block. -/
structure TxWithIndex (Tx : Type) where
  tx : Tx
  index : Nat
deriving DecidableEq

/-- Failure cases of `txProvider.getTxsAtBlock`: the RPC fetch failed, or
the recomputed transaction root does not match the header commitment. -/
inductive GetTxsErr
  | fetchFailed
  | rootMismatch
deriving DecidableEq

/-- The indexing loop of `getTxsAtBlock`: wrap each transaction with its
position, starting at `i`. -/
def indexTxs : List Tx → Nat → List (TxWithIndex Tx)
  | [], _ => []
  | t :: ts, i => ⟨t, i⟩ :: indexTxs ts (i + 1)

/-- `txProvider.getTxsAtBlock` (`execution/ethclient/tx_provider.go`):
fetch the block transactions over RPC (outcome `fetched`), recompute the
transaction root with `types.DeriveSha` (the go-ethereum trie library,
parameter `deriveSha`), reject unless it equals `header.TxHash`, and
otherwise return the transactions wrapped with their indices. -/
def getTxsAtBlock (deriveSha : List Tx → Nat) (fetched : Except Unit (List Tx))
    (header : Header) : Except GetTxsErr (List (TxWithIndex Tx)) :=
  match fetched with
  | .error _ => .error .fetchFailed
  | .ok txs =>
    let root := deriveSha txs
    if root ≠ header.txHash then .error .rootMismatch
    else .ok (indexTxs txs 0)

theorem indexTxs_map_tx (txs : List Tx) (i : Nat) :
    (indexTxs txs i).map (fun t => t.tx) = txs := by
  induction txs generalizing i with
  | nil => rfl
  | cons t ts ih => simp [indexTxs, ih]

theorem indexTxs_length (txs : List Tx) (i : Nat) :
    (indexTxs txs i).length = txs.length := by
  induction txs generalizing i with
  | nil => rfl
  | cons t ts ih => simp [indexTxs, ih]

theorem indexTxs_get (txs : List Tx) (i j : Nat)
    (h : j < (indexTxs txs i).length) :
    ((indexTxs txs i).get ⟨j, h⟩).index = i + j := by
  induction txs generalizing i j with
  | nil => simp [indexTxs] at h
  | cons t ts ih =>
    cases j with
    | zero => rfl
    | succ j =>
      have h2 : j < (indexTxs ts (i + 1)).length :=
        Nat.lt_of_succ_lt_succ (by simpa [indexTxs] using h)
      show ((indexTxs ts (i + 1)).get ⟨j, h2⟩).index = i + (j + 1)
      rw [ih (i + 1) j h2]
      omega

end EthClient

/-- C3: `Verifier.VerifyLogs` succeeds exactly when folding the per-log
hash-chain step over the current head, in log order, yields the expected
head; on success the stored head is advanced to the expected value, and on
any failure (per-log step failure or final head mismatch) the verifier —
in particular its stored head — is left unchanged. -/
theorem c3_verify_logs_iff_fold (Log : Type) (v : Event.Verifier Log)
    (logs : List Log) (expected : Event.H256) :
    (Event.isOk (v.verifyLogs logs expected).1 = true ↔
      Event.foldHeads v.computeNewHead v.head logs = .ok expected)
    ∧ (Event.isOk (v.verifyLogs logs expected).1 = true →
      (v.verifyLogs logs expected).2.head = expected)
    ∧ (Event.isOk (v.verifyLogs logs expected).1 = false →
      (v.verifyLogs logs expected).2 = v) := by
  unfold Event.Verifier.verifyLogs
  cases hf : Event.foldHeads v.computeNewHead v.head logs with
  | error e => simp [Event.isOk]
  | ok curr =>
    by_cases hc : curr = expected
    · subst hc
      simp [Event.isOk]
    · simp [hc, Event.isOk]

/-- Witness for C3 at a concrete verifier: with the step that hashes by
summation, two logs fold `0 ↦ 1 ↦ 3`, so verification against expected
head `3` succeeds, advances the head, and against head `4` fails leaving
the verifier unchanged. -/
theorem c3_witness :
    (Event.isOk
        ((Event.Verifier.mk (fun h l => .ok (h + l)) 0).verifyLogs [1, 2] 3).1 = true ↔
      Event.foldHeads (fun h l => .ok (h + l)) 0 [1, 2] = .ok 3)
    ∧ (Event.isOk
        ((Event.Verifier.mk (fun h l => .ok (h + l)) 0).verifyLogs [1, 2] 3).1 = true →
      ((Event.Verifier.mk (fun h l => .ok (h + l)) 0).verifyLogs [1, 2] 3).2.head = 3)
    ∧ (Event.isOk
        ((Event.Verifier.mk (fun h l => .ok (h + l)) 0).verifyLogs [1, 2] 3).1 = false →
      ((Event.Verifier.mk (fun h l => .ok (h + l)) 0).verifyLogs [1, 2] 3).2 =
        Event.Verifier.mk (fun h l => .ok (h + l)) 0) :=
  c3_verify_logs_iff_fold Nat (Event.Verifier.mk (fun h l => .ok (h + l)) 0) [1, 2] 3

/-- C4: every successful `getTxsAtBlock` call returns exactly the fetched
block transaction list, in block order and indexed by position, and its
recomputed transaction root equals the header's `txHash`; if the recomputed
root differs from the header's `txHash`, the call fails with `rootMismatch`
and returns no transactions. -/
theorem c4_get_txs_at_block_root_check (Tx : Type) (deriveSha : List Tx → Nat)
    (fetched : Except Unit (List Tx)) (header : EthClient.Header)
    (res : List (EthClient.TxWithIndex Tx))
    (h : EthClient.getTxsAtBlock deriveSha fetched header = .ok res) :
    (∃ txs, fetched = .ok txs ∧ res.map (fun t => t.tx) = txs)
    ∧ deriveSha (res.map (fun t => t.tx)) = header.txHash
    ∧ (∀ j (hj : j < res.length), (res.get ⟨j, hj⟩).index = j)
    ∧ (∀ txs, fetched = .ok txs → deriveSha txs ≠ header.txHash →
        EthClient.getTxsAtBlock deriveSha fetched header = .error .rootMismatch) := by
  cases hf : fetched with
  | error e => simp [EthClient.getTxsAtBlock, hf] at h
  | ok txs =>
    by_cases hr : deriveSha txs ≠ header.txHash
    · simp [EthClient.getTxsAtBlock, hf, hr] at h
    · push_neg at hr
      have hres : res = EthClient.indexTxs txs 0 := by
        simpa [EthClient.getTxsAtBlock, hf, hr] using h.symm
      subst hres
      refine ⟨⟨txs, rfl, EthClient.indexTxs_map_tx txs 0⟩, ?_, ?_, ?_⟩
      · rw [EthClient.indexTxs_map_tx]; exact hr
      · intro j hj
        simpa using EthClient.indexTxs_get txs 0 j hj
      · intro txs2 hok hne
        have heq : txs2 = txs := (Except.ok.inj hok).symm
        subst heq
        exact absurd hr hne

/-- Witness for C4 at a concrete call: fetching `[10, 20]` against a header
whose transaction root is the list length succeeds and returns the indexed
transactions. -/
theorem c4_witness :
    (∃ txs, (Except.ok [10, 20] : Except Unit (List Nat)) = .ok txs ∧
      ([EthClient.TxWithIndex.mk 10 0, EthClient.TxWithIndex.mk 20 1].map
        (fun t => t.tx)) = txs)
    ∧ List.length ([EthClient.TxWithIndex.mk 10 0,
        EthClient.TxWithIndex.mk 20 1].map (fun t => t.tx)) =
        (EthClient.Header.mk 2).txHash
    ∧ (∀ j (hj : j < [EthClient.TxWithIndex.mk 10 0,
        EthClient.TxWithIndex.mk 20 1].length),
        (([EthClient.TxWithIndex.mk 10 0, EthClient.TxWithIndex.mk 20 1]).get
          ⟨j, hj⟩).index = j)
    ∧ (∀ txs, (Except.ok [10, 20] : Except Unit (List Nat)) = .ok txs →
        List.length txs ≠ (EthClient.Header.mk 2).txHash →
        EthClient.getTxsAtBlock List.length
          (Except.ok [10, 20] : Except Unit (List Nat))
          (EthClient.Header.mk 2) = .error .rootMismatch) :=
  c4_get_txs_at_block_root_check Nat List.length
    (Except.ok [10, 20] : Except Unit (List Nat)) (EthClient.Header.mk 2)
    [EthClient.TxWithIndex.mk 10 0, EthClient.TxWithIndex.mk 20 1] rfl

namespace StateDb

/-- An Ethereum account address, identified by its value. -/
abbrev Addr := Nat

/-- A storage slot key. -/
abbrev Slot := Nat

/-- A 256-bit word (balance, storage value), identified by its value. -/
abbrev U256 := Nat

/-- Contract code bytes. -/
abbrev Code := List Nat

/-- The value content of the inner go-ethereum `state.StateDB`: for every
address a nonce, a balance, code, and a storage map. The inner database is
a library collaborator; the wrappers below only drive it through these
four setters and the matching getters, so its value content is modelled
as total maps. -/
structure Inner where
  nonce : Addr → Nat
  balance : Addr → U256
  code : Addr → Code
  storage : Addr → Slot → U256

def Inner.setNonce (s : Inner) (a : Addr) (v : Nat) : Inner :=
  { s with nonce := fun x => if x = a then v else s.nonce x }

def Inner.setBalance (s : Inner) (a : Addr) (v : U256) : Inner :=
  { s with balance := fun x => if x = a then v else s.balance x }

def Inner.setCode (s : Inner) (a : Addr) (c : Code) : Inner :=
  { s with code := fun x => if x = a then c else s.code x }

def Inner.setState (s : Inner) (a : Addr) (k : Slot) (v : U256) : Inner :=
  { s with storage := fun x y => if x = a ∧ y = k then v else s.storage x y }

/-- A journal entry (`execution/monitor/state/journal.go`): the recorded
prior value of one mutation. -/
inductive Entry
  | nonceChange (addr : Addr) (prev : Nat)
  | balanceChange (addr : Addr) (prev : U256)
  | codeChange (addr : Addr) (prev : Code)
  | storageChange (addr : Addr) (slot : Slot) (prev : U256)

/-- `journalEntry.revert`: undo one recorded change by writing the
recorded prior value back. -/
def Entry.revertEntry : Entry → Inner → Inner
  | .nonceChange a p, s => s.setNonce a p
  | .balanceChange a p, s => s.setBalance a p
  | .codeChange a p, s => s.setCode a p
  | .storageChange a k p, s => s.setState a k p

/-- `journal.Revert` (`journal.go` lines 82-87): replay the recorded
entries in reverse order of recording. `List.foldr` applies the last
entry first and the first entry last, matching the Go loop from
`len(entries)-1` down to `0`. -/
def journalRevert (entries : List Entry) (s : Inner) : Inner :=
  entries.foldr Entry.revertEntry s

/-- `RevertingStateDB` (`execution/monitor/state/reverting_db.go`): the
inner state plus the journal of recorded prior values. -/
structure RevertingStateDB where
  inner : Inner
  journal : List Entry

/-- `RevertingStateDB.SetNonce`: read the previous nonce, record it in the
journal, then delegate the write to the inner state. -/
def RevertingStateDB.setNonce (db : RevertingStateDB) (a : Addr) (v : Nat) :
    RevertingStateDB :=
  { inner := db.inner.setNonce a v,
    journal := db.journal ++ [.nonceChange a (db.inner.nonce a)] }

/-- `RevertingStateDB.SetBalance`: record the previous balance, then write. -/
def RevertingStateDB.setBalance (db : RevertingStateDB) (a : Addr) (v : U256) :
    RevertingStateDB :=
  { inner := db.inner.setBalance a v,
    journal := db.journal ++ [.balanceChange a (db.inner.balance a)] }

/-- `RevertingStateDB.SetCode`: the inner `SetCode` returns the previous
code, which is recorded in the journal. -/
def RevertingStateDB.setCode (db : RevertingStateDB) (a : Addr) (c : Code) :
    RevertingStateDB :=
  { inner := db.inner.setCode a c,
    journal := db.journal ++ [.codeChange a (db.inner.code a)] }

/-- `RevertingStateDB.SetState`: the inner `SetState` returns the previous
slot value, which is recorded in the journal. -/
def RevertingStateDB.setState (db : RevertingStateDB) (a : Addr) (k : Slot)
    (v : U256) : RevertingStateDB :=
  { inner := db.inner.setState a k v,
    journal := db.journal ++ [.storageChange a k (db.inner.storage a k)] }

/-- `RevertingStateDB.Revert`: replay the journal on the inner state. The
journal itself is not cleared by `Revert` (only `Commit` resets it). -/
def RevertingStateDB.revert (db : RevertingStateDB) : RevertingStateDB :=
  { db with inner := journalRevert db.journal db.inner }

/-- `RevertingStateDB.Commit` (lines 65-68): reset the journal, then
delegate to the inner commit. The inner `state.StateDB.Commit` persists
the trie and returns the new root without changing the value content of
the accounts, so on the value level it is the identity on `Inner`. -/
def RevertingStateDB.commit (db : RevertingStateDB) : RevertingStateDB :=
  { inner := db.inner, journal := [] }

/-- `RevertingStateDB.WithRoot`: reconstruct a new instance at the given
root over the same backing database, keeping the same journal. Rebinding
the just-committed root reproduces the same account contents. -/
def RevertingStateDB.withRoot (db : RevertingStateDB) : RevertingStateDB :=
  db

/-- The journal-recorded mutations of the reverting database. -/
inductive MutOp
  | setNonce (a : Addr) (v : Nat)
  | setBalance (a : Addr) (v : U256)
  | setCode (a : Addr) (c : Code)
  | setState (a : Addr) (k : Slot) (v : U256)

def applyOp (db : RevertingStateDB) : MutOp → RevertingStateDB
  | .setNonce a v => db.setNonce a v
  | .setBalance a v => db.setBalance a v
  | .setCode a c => db.setCode a c
  | .setState a k v => db.setState a k v

def applyOps (db : RevertingStateDB) (ops : List MutOp) : RevertingStateDB :=
  ops.foldl applyOp db

theorem setNonce_cancel (s : Inner) (a : Addr) (v : Nat) :
    (s.setNonce a v).setNonce a (s.nonce a) = s := by
  cases s with
  | mk n b c st =>
    simp only [Inner.setNonce]
    congr 1
    funext x
    by_cases hx : x = a <;> simp [hx]

theorem setBalance_cancel (s : Inner) (a : Addr) (v : U256) :
    (s.setBalance a v).setBalance a (s.balance a) = s := by
  cases s with
  | mk n b c st =>
    simp only [Inner.setBalance]
    congr 1
    funext x
    by_cases hx : x = a <;> simp [hx]

theorem setCode_cancel (s : Inner) (a : Addr) (c : Code) :
    (s.setCode a c).setCode a (s.code a) = s := by
  cases s with
  | mk n b c0 st =>
    simp only [Inner.setCode]
    congr 1
    funext x
    by_cases hx : x = a <;> simp [hx]

theorem setState_cancel (s : Inner) (a : Addr) (k : Slot) (v : U256) :
    (s.setState a k v).setState a k (s.storage a k) = s := by
  cases s with
  | mk n b c st =>
    simp only [Inner.setState]
    congr 1
    funext x
    funext y
    by_cases hx : x = a ∧ y = k
    · simp [hx, hx.1, hx.2]
    · simp [hx]

theorem journalRevert_append (J : List Entry) (e : Entry) (s : Inner) :
    journalRevert (J ++ [e]) s = journalRevert J (e.revertEntry s) := by
  simp [journalRevert, List.foldr_append]

/-- Applying one journaled mutation does not change the state that a full
journal replay reaches: the appended entry undoes exactly the mutation. -/
theorem applyOp_revert_target (db : RevertingStateDB) (op : MutOp) :
    journalRevert (applyOp db op).journal (applyOp db op).inner =
      journalRevert db.journal db.inner := by
  cases op with
  | setNonce a v =>
    simp [applyOp, RevertingStateDB.setNonce, journalRevert_append,
      Entry.revertEntry, setNonce_cancel]
  | setBalance a v =>
    simp [applyOp, RevertingStateDB.setBalance, journalRevert_append,
      Entry.revertEntry, setBalance_cancel]
  | setCode a c =>
    simp [applyOp, RevertingStateDB.setCode, journalRevert_append,
      Entry.revertEntry, setCode_cancel]
  | setState a k v =>
    simp [applyOp, RevertingStateDB.setState, journalRevert_append,
      Entry.revertEntry, setState_cancel]

theorem applyOps_revert_target (db : RevertingStateDB) (ops : List MutOp) :
    journalRevert (applyOps db ops).journal (applyOps db ops).inner =
      journalRevert db.journal db.inner := by
  induction ops generalizing db with
  | nil => rfl
  | cons op rest ih =>
    calc journalRevert (applyOps (applyOp db op) rest).journal
          (applyOps (applyOp db op) rest).inner
        = journalRevert (applyOp db op).journal (applyOp db op).inner :=
          ih (applyOp db op)
      _ = journalRevert db.journal db.inner := applyOp_revert_target db op

/-- A reverting database is settled when replaying its journal leaves its
inner state unchanged. A freshly created database (empty journal), a
just-committed database (journal reset), and a just-reverted database all
satisfy this. -/
def Settled (db : RevertingStateDB) : Prop :=
  journalRevert db.journal db.inner = db.inner

theorem settled_of_journal_nil (db : RevertingStateDB) (h : db.journal = []) :
    Settled db := by
  simp [Settled, h, journalRevert]

theorem revert_of_settled (db : RevertingStateDB) (hdb : Settled db)
    (ops : List MutOp) : (applyOps db ops).revert.inner = db.inner := by
  have := applyOps_revert_target db ops
  simp only [RevertingStateDB.revert]
  rw [this, hdb]

end StateDb

/-- C8: for every reverting state database whose journal was reset by the
last commit, and every sequence of journaled mutations (`set_nonce`,
`set_balance`, `set_code`, `set_state`) since then, `Revert` replays the
recorded prior values in reverse order and restores every mutated nonce,
balance, code, and storage slot to its pre-mutation value; `Commit`
resets the journal before delegating to the inner commit, so a `Revert`
issued after a commit changes nothing. -/
theorem c8_revert_restores (db : StateDb.RevertingStateDB)
    (ops : List StateDb.MutOp) (hJ : db.journal = []) :
    ((StateDb.applyOps db ops).revert).inner = db.inner
    ∧ (StateDb.applyOps db ops).commit.journal = []
    ∧ ((StateDb.applyOps db ops).commit).revert =
        (StateDb.applyOps db ops).commit := by
  refine ⟨StateDb.revert_of_settled db (StateDb.settled_of_journal_nil db hJ) ops,
    rfl, ?_⟩
  simp [StateDb.RevertingStateDB.commit, StateDb.RevertingStateDB.revert,
    StateDb.journalRevert]

/-- Witness for C8: a zero-initialised database mutated by a nonce write, a
balance write, a code write and a storage write is restored by `Revert`,
and `Revert` after `Commit` is the identity. -/
theorem c8_witness :
    ((StateDb.applyOps
        (StateDb.RevertingStateDB.mk
          (StateDb.Inner.mk (fun _ => 0) (fun _ => 0) (fun _ => []) (fun _ _ => 0)) [])
        [.setNonce 1 5, .setBalance 1 7, .setCode 2 [1], .setState 2 3 9]).revert).inner =
      (StateDb.Inner.mk (fun _ => 0) (fun _ => 0) (fun _ => []) (fun _ _ => 0))
    ∧ (StateDb.applyOps
        (StateDb.RevertingStateDB.mk
          (StateDb.Inner.mk (fun _ => 0) (fun _ => 0) (fun _ => []) (fun _ _ => 0)) [])
        [.setNonce 1 5, .setBalance 1 7, .setCode 2 [1], .setState 2 3 9]).commit.journal = []
    ∧ ((StateDb.applyOps
        (StateDb.RevertingStateDB.mk
          (StateDb.Inner.mk (fun _ => 0) (fun _ => 0) (fun _ => []) (fun _ _ => 0)) [])
        [.setNonce 1 5, .setBalance 1 7, .setCode 2 [1], .setState 2 3 9]).commit).revert =
      (StateDb.applyOps
        (StateDb.RevertingStateDB.mk
          (StateDb.Inner.mk (fun _ => 0) (fun _ => 0) (fun _ => []) (fun _ _ => 0)) [])
        [.setNonce 1 5, .setBalance 1 7, .setCode 2 [1], .setState 2 3 9]).commit :=
  c8_revert_restores
    (StateDb.RevertingStateDB.mk
      (StateDb.Inner.mk (fun _ => 0) (fun _ => 0) (fun _ => []) (fun _ _ => 0)) [])
    [.setNonce 1 5, .setBalance 1 7, .setCode 2 [1], .setState 2 3 9] rfl

namespace StateDb

/-- The post-execution transient tracing state, restricted to the queries
`TxProcessor.merge` performs on it: the written accounts with their final
nonce, balance and code, and the written storage slots per monitored
account with their final values. -/
structure Transient where
  writtenAccounts : List Addr
  nonce : Addr → Nat
  balance : Addr → U256
  code : Addr → Code
  writtenSlots : Addr → List Slot
  storage : Addr → Slot → U256

/-- The step outcomes `TxProcessor.ProcessBlock` observes from its
collaborators for one block: the transaction fetch, the relevance filter,
the transient state preparation, the transaction execution (whose result
is the post-execution transient state), the uninitialized-read check, and
the per-account completeness check against the persistent state. The
in-memory transient commit, the transient state reconstruction, the
persistent inner commit and the root rebinding are the go-ethereum
library boundary and are modelled as infallible, matching the failure
reasons the claim enumerates. -/
structure Env where
  getTxs : Except Unit (List Nat)
  filterTxs : List Nat → Except Unit (List Nat)
  loadState : List Nat → Except Unit Transient
  executeTxs : Transient → Except Unit Transient
  verifyUninit : Transient → Except Unit Unit
  verifyCompleteness : Addr → Inner → Except Unit Unit

/-- The error cases of `ProcessBlock`, one per failing step. -/
inductive PBErr
  | getTxsFailed
  | filterTxsFailed
  | loadStateFailed
  | executeTxsFailed
  | uninitReadsInvalid
  | completenessFailed (a : Addr)
deriving DecidableEq

/-- `TxProcessor.merge` (`processor.go`, second document): for every
account the execution wrote, if it is monitored, copy nonce, balance and
code into the persistent state; then for every monitored account, copy
every written storage slot. All four copies go through the journaled
setters of the reverting database. -/
def merge (monitored : List Addr) (t : Transient) (world : RevertingStateDB) :
    RevertingStateDB :=
  let w1 := t.writtenAccounts.foldl
    (fun w a =>
      if monitored.contains a then
        ((w.setNonce a (t.nonce a)).setBalance a (t.balance a)).setCode a (t.code a)
      else w)
    world
  monitored.foldl
    (fun w a => (t.writtenSlots a).foldl
      (fun w k => w.setState a k (t.storage a k)) w)
    w1

/-- The completeness loop of `ProcessBlock`: check every monitored account
against the (merged) persistent state, stopping at the first failure. -/
def verifyAll (f : Addr → Inner → Except Unit Unit) (accs : List Addr)
    (w : RevertingStateDB) : Except Addr Unit :=
  match accs with
  | [] => .ok ()
  | a :: rest =>
    match f a w.inner with
    | .error _ => .error a
    | .ok () => verifyAll f rest w

/-- `TxProcessor.ProcessBlock` (`processor.go`, second document, lines
603-678): fetch the block transactions, filter the relevant ones (an empty
filter result skips the block successfully), load the transient pre-block
state, execute, commit the transient state and rebind it (in-memory, no
value change), check uninitialized reads, merge into the persistent world,
recompute the intermediate root (no value change), check completeness for
every monitored account — reverting the persistent world and failing on a
completeness failure — and finally commit the persistent world and rebind
it at the committed root. -/
def processBlock (env : Env) (monitored : List Addr)
    (world : RevertingStateDB) : Except PBErr Unit × RevertingStateDB :=
  match env.getTxs with
  | .error _ => (.error .getTxsFailed, world)
  | .ok txs =>
    match env.filterTxs txs with
    | .error _ => (.error .filterTxsFailed, world)
    | .ok relevant =>
      if relevant.isEmpty then (.ok (), world)
      else
        match env.loadState relevant with
        | .error _ => (.error .loadStateFailed, world)
        | .ok transient0 =>
          match env.executeTxs transient0 with
          | .error _ => (.error .executeTxsFailed, world)
          | .ok transient =>
            match env.verifyUninit transient with
            | .error _ => (.error .uninitReadsInvalid, world)
            | .ok () =>
              let world1 := merge monitored transient world
              match verifyAll env.verifyCompleteness monitored world1 with
              | .error a => (.error (.completenessFailed a), world1.revert)
              | .ok () => (.ok (), world1.commit.withRoot)

theorem merge_revert_target (monitored : List Addr) (t : Transient)
    (world : RevertingStateDB) :
    journalRevert (merge monitored t world).journal
        (merge monitored t world).inner =
      journalRevert world.journal world.inner := by
  unfold merge
  have step1 : ∀ (accs : List Addr) (w : RevertingStateDB),
      journalRevert (accs.foldl
          (fun w a =>
            if monitored.contains a then
              ((w.setNonce a (t.nonce a)).setBalance a (t.balance a)).setCode a
                (t.code a)
            else w) w).journal
        (accs.foldl
          (fun w a =>
            if monitored.contains a then
              ((w.setNonce a (t.nonce a)).setBalance a (t.balance a)).setCode a
                (t.code a)
            else w) w).inner =
      journalRevert w.journal w.inner := by
    intro accs
    induction accs with
    | nil => intro w; rfl
    | cons a rest ih =>
      intro w
      simp only [List.foldl_cons]
      rw [ih]
      split
      · have h1 := applyOp_revert_target w (.setNonce a (t.nonce a))
        have h2 := applyOp_revert_target (w.setNonce a (t.nonce a))
          (.setBalance a (t.balance a))
        have h3 := applyOp_revert_target
          ((w.setNonce a (t.nonce a)).setBalance a (t.balance a))
          (.setCode a (t.code a))
        simp only [applyOp] at h1 h2 h3
        rw [h3, h2, h1]
      · rfl
  have step2 : ∀ (accs : List Addr) (w : RevertingStateDB),
      journalRevert (accs.foldl
          (fun w a => (t.writtenSlots a).foldl
            (fun w k => w.setState a k (t.storage a k)) w) w).journal
        (accs.foldl
          (fun w a => (t.writtenSlots a).foldl
            (fun w k => w.setState a k (t.storage a k)) w) w).inner =
      journalRevert w.journal w.inner := by
    have inner2 : ∀ (a : Addr) (slots : List Slot) (w : RevertingStateDB),
        journalRevert (slots.foldl
            (fun w k => w.setState a k (t.storage a k)) w).journal
          (slots.foldl (fun w k => w.setState a k (t.storage a k)) w).inner =
        journalRevert w.journal w.inner := by
      intro a slots
      induction slots with
      | nil => intro w; rfl
      | cons k rest ih =>
        intro w
        simp only [List.foldl_cons]
        rw [ih]
        have h1 := applyOp_revert_target w (.setState a k (t.storage a k))
        simp only [applyOp] at h1
        exact h1
    intro accs
    induction accs with
    | nil => intro w; rfl
    | cons a rest ih =>
      intro w
      simp only [List.foldl_cons]
      rw [ih, inner2]
  rw [step2, step1]

end StateDb

/-- C2: for every environment of step outcomes and every settled persistent
reverting state database (its journal replay is a no-op, as holds for a
fresh, a just-committed, or a just-reverted database), if
`TxProcessor.ProcessBlock` returns an error — from the transaction fetch,
the filtering, the state preparation, the execution, the
uninitialized-read check, or the completeness check — then on return the
account contents of the persistent sparse state equal their pre-block
contents: mutations begun during the block have been journal-reverted. -/
theorem c2_process_block_error_preserves_state (env : StateDb.Env)
    (monitored : List StateDb.Addr) (world : StateDb.RevertingStateDB)
    (hS : StateDb.Settled world) (e : StateDb.PBErr)
    (h : (StateDb.processBlock env monitored world).1 = .error e) :
    (StateDb.processBlock env monitored world).2.inner = world.inner := by
  unfold StateDb.processBlock at h ⊢
  cases hg : env.getTxs with
  | error u => simp [hg]
  | ok txs =>
    cases hf : env.filterTxs txs with
    | error u => simp [hg, hf]
    | ok relevant =>
      by_cases hr : relevant.isEmpty
      · simp [hg, hf, hr] at h
      · cases hl : env.loadState relevant with
        | error u => simp [hg, hf, hr, hl]
        | ok transient0 =>
          cases hx : env.executeTxs transient0 with
          | error u => simp [hg, hf, hr, hl, hx]
          | ok transient =>
            cases hv : env.verifyUninit transient with
            | error u => simp [hg, hf, hr, hl, hx, hv]
            | ok u =>
              cases hc : StateDb.verifyAll env.verifyCompleteness monitored
                  (StateDb.merge monitored transient world) with
              | error a =>
                simp only [hg, hf, hr, if_neg, hl, hx, hv, hc]
                show (StateDb.merge monitored transient world).revert.inner =
                  world.inner
                simp only [StateDb.RevertingStateDB.revert]
                rw [StateDb.merge_revert_target, hS]
              | ok u2 =>
                simp [hg, hf, hr, hl, hx, hv, hc] at h

/-- Witness for C2: with a failing transaction fetch, `ProcessBlock` on a
fresh zero-initialised world state returns an error and leaves the account
contents unchanged. -/
theorem c2_witness :
    (StateDb.processBlock
      (StateDb.Env.mk (.error ()) (fun _ => .ok []) (fun _ => .error ())
        (fun t => .ok t) (fun _ => .ok ()) (fun _ _ => .ok ()))
      []
      (StateDb.RevertingStateDB.mk
        (StateDb.Inner.mk (fun _ => 0) (fun _ => 0) (fun _ => []) (fun _ _ => 0))
        [])).2.inner =
    (StateDb.Inner.mk (fun _ => 0) (fun _ => 0) (fun _ => []) (fun _ _ => 0)) :=
  c2_process_block_error_preserves_state
    (StateDb.Env.mk (.error ()) (fun _ => .ok []) (fun _ => .error ())
      (fun t => .ok t) (fun _ => .ok ()) (fun _ _ => .ok ()))
    []
    (StateDb.RevertingStateDB.mk
      (StateDb.Inner.mk (fun _ => 0) (fun _ => 0) (fun _ => []) (fun _ _ => 0))
      [])
    rfl .getTxsFailed rfl

namespace Tracing

abbrev Addr := Nat

abbrev Slot := Nat

/-- The per-instance tracer of the transient tracing state database
(`execution/monitor/state/tracer.go`, second document): the sets of
account writes, uninitialized account reads, storage-slot writes, and
uninitialized storage-slot reads, modelled as their membership maps. -/
structure Tracer where
  accWrites : Addr → Bool
  uninitAccReads : Addr → Bool
  storageWrites : Addr → Slot → Bool
  uninitStorageReads : Addr → Slot → Bool

/-- `newTracer`: all four sets start empty. -/
def emptyTracer : Tracer :=
  ⟨fun _ => false, fun _ => false, fun _ _ => false, fun _ _ => false⟩

/-- `tracer.OnReadAccount`: a read of an address that is not marked as
written is recorded as an uninitialized account read. -/
def Tracer.onReadAccount (t : Tracer) (a : Addr) : Tracer :=
  if t.accWrites a then t
  else { t with uninitAccReads := fun x => if x = a then true else t.uninitAccReads x }

/-- `tracer.OnWriteAccount`: mark the address as written. -/
def Tracer.onWriteAccount (t : Tracer) (a : Addr) : Tracer :=
  { t with accWrites := fun x => if x = a then true else t.accWrites x }

/-- `tracer.OnReadStorage`: a read of a slot that is not marked as written
is recorded as an uninitialized storage read. -/
def Tracer.onReadStorage (t : Tracer) (a : Addr) (k : Slot) : Tracer :=
  if t.storageWrites a k then t
  else { t with uninitStorageReads :=
    fun x y => if x = a ∧ y = k then true else t.uninitStorageReads x y }

/-- `tracer.OnWriteStorage`: mark the slot as written. -/
def Tracer.onWriteStorage (t : Tracer) (a : Addr) (k : Slot) : Tracer :=
  { t with storageWrites :=
    fun x y => if x = a ∧ y = k then true else t.storageWrites x y }

/-- The `TracingStateDB` methods (`execution/monitor/state/database.go`)
as far as the tracer can observe them: account creation, balance, nonce,
code, and storage accesses. -/
inductive Op
  | createAccount (a : Addr)
  | createContract (a : Addr)
  | subBalance (a : Addr)
  | addBalance (a : Addr)
  | getBalance (a : Addr)
  | getNonce (a : Addr)
  | setNonce (a : Addr)
  | getCodeHash (a : Addr)
  | getCode (a : Addr)
  | setCode (a : Addr)
  | setBalance (a : Addr)
  | getState (a : Addr) (k : Slot)
  | setState (a : Addr) (k : Slot)
  | getStorageRoot (a : Addr)
  | getCommittedState (a : Addr) (k : Slot)
deriving DecidableEq

/-- The tracer calls each `TracingStateDB` method makes, exactly as in
`database.go`: `CreateAccount`/`CreateContract` record an account write,
`SetState` records a storage write, the reads (`SubBalance`, `AddBalance`,
`GetBalance`, `GetNonce`, `GetCodeHash`, `GetCode`, `GetState`,
`GetStorageRoot`) record reads; `SetNonce`, `SetCode`, `SetBalance` and
`GetCommittedState` do not touch the tracer. -/
def traceStep (t : Tracer) : Op → Tracer
  | .createAccount a => t.onWriteAccount a
  | .createContract a => t.onWriteAccount a
  | .subBalance a => t.onReadAccount a
  | .addBalance a => t.onReadAccount a
  | .getBalance a => t.onReadAccount a
  | .getNonce a => t.onReadAccount a
  | .setNonce _ => t
  | .getCodeHash a => t.onReadAccount a
  | .getCode a => t.onReadAccount a
  | .setCode _ => t
  | .setBalance _ => t
  | .getState a k => t.onReadStorage a k
  | .setState a k => t.onWriteStorage a k
  | .getStorageRoot a => t.onReadAccount a
  | .getCommittedState _ _ => t

/-- The tracer state after a fresh per-block instance processes a
sequence of state accesses. -/
def runOps (ops : List Op) : Tracer :=
  ops.foldl traceStep emptyTracer

/-- The tracer calls as the claim describes them: every write operation —
account creation, nonce set, balance set, code set, storage set — records
the written address (and slot, for storage); reads as in the code. -/
def traceStepClaim (t : Tracer) : Op → Tracer
  | .createAccount a => t.onWriteAccount a
  | .createContract a => t.onWriteAccount a
  | .subBalance a => t.onReadAccount a
  | .addBalance a => t.onReadAccount a
  | .getBalance a => t.onReadAccount a
  | .getNonce a => t.onReadAccount a
  | .setNonce a => t.onWriteAccount a
  | .getCodeHash a => t.onReadAccount a
  | .getCode a => t.onReadAccount a
  | .setCode a => t.onWriteAccount a
  | .setBalance a => t.onWriteAccount a
  | .getState a k => t.onReadStorage a k
  | .setState a k => t.onWriteStorage a k
  | .getStorageRoot a => t.onReadAccount a
  | .getCommittedState _ _ => t

/-- The tracer state the claim predicts for a fresh instance. -/
def runOpsClaim (ops : List Op) : Tracer :=
  ops.foldl traceStepClaim emptyTracer

/-- The operations that record an account write in the tracer: only the
two creation methods. -/
def isAccWriteRec : Op → Addr → Bool
  | .createAccount b, a => decide (a = b)
  | .createContract b, a => decide (a = b)
  | _, _ => false

/-- The account-read operations the tracer observes. -/
def isAccRead : Op → Addr → Bool
  | .subBalance b, a => decide (a = b)
  | .addBalance b, a => decide (a = b)
  | .getBalance b, a => decide (a = b)
  | .getNonce b, a => decide (a = b)
  | .getCodeHash b, a => decide (a = b)
  | .getCode b, a => decide (a = b)
  | .getStorageRoot b, a => decide (a = b)
  | _, _ => false

/-- The operations that record a storage-slot write: `SetState`. -/
def isSlotWriteRec : Op → Addr → Slot → Bool
  | .setState b j, a, k => decide (a = b) && decide (k = j)
  | _, _, _ => false

/-- The storage-slot reads the tracer observes: `GetState`. -/
def isSlotRead : Op → Addr → Slot → Bool
  | .getState b j, a, k => decide (a = b) && decide (k = j)
  | _, _, _ => false

/-- An address has a recorded account write somewhere in the sequence. -/
def hasAccWrite (ops : List Op) (a : Addr) : Bool :=
  ops.any (fun op => isAccWriteRec op a)

/-- An address is read before its first recorded account write. -/
def readBeforeAccWrite : List Op → Addr → Bool
  | [], _ => false
  | op :: rest, a =>
    if isAccWriteRec op a then false
    else if isAccRead op a then true
    else readBeforeAccWrite rest a

/-- A slot has a recorded storage write somewhere in the sequence. -/
def hasSlotWrite (ops : List Op) (a : Addr) (k : Slot) : Bool :=
  ops.any (fun op => isSlotWriteRec op a k)

/-- A slot is read before its first recorded storage write. -/
def readBeforeSlotWrite : List Op → Addr → Slot → Bool
  | [], _, _ => false
  | op :: rest, a, k =>
    if isSlotWriteRec op a k then false
    else if isSlotRead op a k then true
    else readBeforeSlotWrite rest a k

theorem onWriteAccount_accWrites (t : Tracer) (b x : Addr) :
    (t.onWriteAccount b).accWrites x = (decide (x = b) || t.accWrites x) := by
  by_cases h : x = b <;> simp [Tracer.onWriteAccount, h]

theorem onWriteAccount_uninitAccReads (t : Tracer) (b : Addr) :
    (t.onWriteAccount b).uninitAccReads = t.uninitAccReads := rfl

theorem onWriteAccount_storageWrites (t : Tracer) (b : Addr) :
    (t.onWriteAccount b).storageWrites = t.storageWrites := rfl

theorem onWriteAccount_uninitStorageReads (t : Tracer) (b : Addr) :
    (t.onWriteAccount b).uninitStorageReads = t.uninitStorageReads := rfl

theorem onReadAccount_accWrites (t : Tracer) (b : Addr) :
    (t.onReadAccount b).accWrites = t.accWrites := by
  unfold Tracer.onReadAccount
  split <;> rfl

theorem onReadAccount_storageWrites (t : Tracer) (b : Addr) :
    (t.onReadAccount b).storageWrites = t.storageWrites := by
  unfold Tracer.onReadAccount
  split <;> rfl

theorem onReadAccount_uninitStorageReads (t : Tracer) (b : Addr) :
    (t.onReadAccount b).uninitStorageReads = t.uninitStorageReads := by
  unfold Tracer.onReadAccount
  split <;> rfl

theorem onReadAccount_uninitAccReads (t : Tracer) (b x : Addr) :
    (t.onReadAccount b).uninitAccReads x =
      (t.uninitAccReads x || (decide (x = b) && !t.accWrites b)) := by
  unfold Tracer.onReadAccount
  by_cases hw : t.accWrites b
  · simp [hw]
  · by_cases h : x = b <;> simp [h, hw]

theorem onWriteStorage_accWrites (t : Tracer) (b : Addr) (j : Slot) :
    (t.onWriteStorage b j).accWrites = t.accWrites := rfl

theorem onWriteStorage_uninitAccReads (t : Tracer) (b : Addr) (j : Slot) :
    (t.onWriteStorage b j).uninitAccReads = t.uninitAccReads := rfl

theorem onWriteStorage_uninitStorageReads (t : Tracer) (b : Addr) (j : Slot) :
    (t.onWriteStorage b j).uninitStorageReads = t.uninitStorageReads := rfl

theorem onWriteStorage_storageWrites (t : Tracer) (b : Addr) (j : Slot)
    (x : Addr) (y : Slot) :
    (t.onWriteStorage b j).storageWrites x y =
      ((decide (x = b) && decide (y = j)) || t.storageWrites x y) := by
  by_cases hx : x = b
  · by_cases hy : y = j <;> simp [Tracer.onWriteStorage, hx, hy]
  · simp [Tracer.onWriteStorage, hx]

theorem onReadStorage_accWrites (t : Tracer) (b : Addr) (j : Slot) :
    (t.onReadStorage b j).accWrites = t.accWrites := by
  unfold Tracer.onReadStorage
  split <;> rfl

theorem onReadStorage_uninitAccReads (t : Tracer) (b : Addr) (j : Slot) :
    (t.onReadStorage b j).uninitAccReads = t.uninitAccReads := by
  unfold Tracer.onReadStorage
  split <;> rfl

theorem onReadStorage_storageWrites (t : Tracer) (b : Addr) (j : Slot) :
    (t.onReadStorage b j).storageWrites = t.storageWrites := by
  unfold Tracer.onReadStorage
  split <;> rfl

theorem onReadStorage_uninitStorageReads (t : Tracer) (b : Addr) (j : Slot)
    (x : Addr) (y : Slot) :
    (t.onReadStorage b j).uninitStorageReads x y =
      (t.uninitStorageReads x y ||
        ((decide (x = b) && decide (y = j)) && !t.storageWrites b j)) := by
  unfold Tracer.onReadStorage
  by_cases hw : t.storageWrites b j
  · simp [hw]
  · by_cases hx : x = b
    · by_cases hy : y = j <;> simp [hx, hy, hw]
    · simp [hx, hw]

theorem step_accWrites (t : Tracer) (op : Op) (a : Addr) :
    (traceStep t op).accWrites a = (isAccWriteRec op a || t.accWrites a) := by
  cases op <;>
    simp [traceStep, isAccWriteRec, onWriteAccount_accWrites,
      onReadAccount_accWrites, onReadStorage_accWrites, onWriteStorage_accWrites]

theorem step_uninitAccReads (t : Tracer) (op : Op) (a : Addr) :
    (traceStep t op).uninitAccReads a =
      (t.uninitAccReads a ||
        (isAccRead op a && !t.accWrites a)) := by
  cases op with
  | subBalance b =>
    rw [show traceStep t (.subBalance b) = t.onReadAccount b from rfl,
      onReadAccount_uninitAccReads]
    by_cases h : a = b <;> simp [isAccRead, h]
  | addBalance b =>
    rw [show traceStep t (.addBalance b) = t.onReadAccount b from rfl,
      onReadAccount_uninitAccReads]
    by_cases h : a = b <;> simp [isAccRead, h]
  | getBalance b =>
    rw [show traceStep t (.getBalance b) = t.onReadAccount b from rfl,
      onReadAccount_uninitAccReads]
    by_cases h : a = b <;> simp [isAccRead, h]
  | getNonce b =>
    rw [show traceStep t (.getNonce b) = t.onReadAccount b from rfl,
      onReadAccount_uninitAccReads]
    by_cases h : a = b <;> simp [isAccRead, h]
  | getCodeHash b =>
    rw [show traceStep t (.getCodeHash b) = t.onReadAccount b from rfl,
      onReadAccount_uninitAccReads]
    by_cases h : a = b <;> simp [isAccRead, h]
  | getCode b =>
    rw [show traceStep t (.getCode b) = t.onReadAccount b from rfl,
      onReadAccount_uninitAccReads]
    by_cases h : a = b <;> simp [isAccRead, h]
  | getStorageRoot b =>
    rw [show traceStep t (.getStorageRoot b) = t.onReadAccount b from rfl,
      onReadAccount_uninitAccReads]
    by_cases h : a = b <;> simp [isAccRead, h]
  | createAccount b =>
    simp [traceStep, isAccRead, onWriteAccount_uninitAccReads]
  | createContract b =>
    simp [traceStep, isAccRead, onWriteAccount_uninitAccReads]
  | setNonce b => simp [traceStep, isAccRead]
  | setCode b => simp [traceStep, isAccRead]
  | setBalance b => simp [traceStep, isAccRead]
  | getState b j =>
    simp [traceStep, isAccRead, onReadStorage_uninitAccReads]
  | setState b j =>
    simp [traceStep, isAccRead, onWriteStorage_uninitAccReads]
  | getCommittedState b j => simp [traceStep, isAccRead]

theorem step_storageWrites (t : Tracer) (op : Op) (a : Addr) (k : Slot) :
    (traceStep t op).storageWrites a k =
      (isSlotWriteRec op a k || t.storageWrites a k) := by
  cases op <;>
    simp [traceStep, isSlotWriteRec, onWriteAccount_storageWrites,
      onReadAccount_storageWrites, onReadStorage_storageWrites,
      onWriteStorage_storageWrites]

theorem step_uninitStorageReads (t : Tracer) (op : Op) (a : Addr) (k : Slot) :
    (traceStep t op).uninitStorageReads a k =
      (t.uninitStorageReads a k ||
        (isSlotRead op a k && !t.storageWrites a k)) := by
  cases op with
  | getState b j =>
    rw [show traceStep t (.getState b j) = t.onReadStorage b j from rfl,
      onReadStorage_uninitStorageReads]
    by_cases hx : a = b
    · by_cases hy : k = j <;> simp [isSlotRead, hx, hy]
    · simp [isSlotRead, hx]
  | setState b j =>
    simp [traceStep, isSlotRead, onWriteStorage_uninitStorageReads]
  | createAccount b =>
    simp [traceStep, isSlotRead, onWriteAccount_uninitStorageReads]
  | createContract b =>
    simp [traceStep, isSlotRead, onWriteAccount_uninitStorageReads]
  | subBalance b =>
    simp [traceStep, isSlotRead, onReadAccount_uninitStorageReads]
  | addBalance b =>
    simp [traceStep, isSlotRead, onReadAccount_uninitStorageReads]
  | getBalance b =>
    simp [traceStep, isSlotRead, onReadAccount_uninitStorageReads]
  | getNonce b =>
    simp [traceStep, isSlotRead, onReadAccount_uninitStorageReads]
  | setNonce b => simp [traceStep, isSlotRead]
  | getCodeHash b =>
    simp [traceStep, isSlotRead, onReadAccount_uninitStorageReads]
  | getCode b =>
    simp [traceStep, isSlotRead, onReadAccount_uninitStorageReads]
  | setCode b => simp [traceStep, isSlotRead]
  | setBalance b => simp [traceStep, isSlotRead]
  | getStorageRoot b =>
    simp [traceStep, isSlotRead, onReadAccount_uninitStorageReads]
  | getCommittedState b j => simp [traceStep, isSlotRead]

theorem runFrom_accWrites (ops : List Op) (t : Tracer) (a : Addr) :
    (ops.foldl traceStep t).accWrites a = (t.accWrites a || hasAccWrite ops a) := by
  induction ops generalizing t with
  | nil => simp [hasAccWrite]
  | cons op rest ih =>
    simp only [List.foldl_cons]
    rw [ih, step_accWrites]
    simp only [hasAccWrite, List.any_cons]
    cases isAccWriteRec op a <;> cases t.accWrites a <;> simp [hasAccWrite]

theorem not_accRead_of_accWriteRec (op : Op) (a : Addr)
    (h : isAccWriteRec op a = true) : isAccRead op a = false := by
  cases op <;> simp_all [isAccWriteRec, isAccRead]

theorem not_slotRead_of_slotWriteRec (op : Op) (a : Addr) (k : Slot)
    (h : isSlotWriteRec op a k = true) : isSlotRead op a k = false := by
  cases op <;> simp_all [isSlotWriteRec, isSlotRead]

theorem runFrom_uninitAccReads (ops : List Op) (t : Tracer) (a : Addr) :
    (ops.foldl traceStep t).uninitAccReads a =
      (t.uninitAccReads a || (!t.accWrites a && readBeforeAccWrite ops a)) := by
  induction ops generalizing t with
  | nil => simp [readBeforeAccWrite]
  | cons op rest ih =>
    simp only [List.foldl_cons]
    rw [ih, step_uninitAccReads, step_accWrites]
    simp only [readBeforeAccWrite]
    cases hw : isAccWriteRec op a <;>
      cases hr : isAccRead op a <;>
      cases hacc : t.accWrites a <;>
        simp [hw, hr, hacc]
    exact absurd (not_accRead_of_accWriteRec op a hw) (by simp [hr])

theorem runFrom_storageWrites (ops : List Op) (t : Tracer) (a : Addr) (k : Slot) :
    (ops.foldl traceStep t).storageWrites a k =
      (t.storageWrites a k || hasSlotWrite ops a k) := by
  induction ops generalizing t with
  | nil => simp [hasSlotWrite]
  | cons op rest ih =>
    simp only [List.foldl_cons]
    rw [ih, step_storageWrites]
    simp only [hasSlotWrite, List.any_cons]
    cases isSlotWriteRec op a k <;> cases t.storageWrites a k <;> simp [hasSlotWrite]

theorem runFrom_uninitStorageReads (ops : List Op) (t : Tracer) (a : Addr)
    (k : Slot) :
    (ops.foldl traceStep t).uninitStorageReads a k =
      (t.uninitStorageReads a k ||
        (!t.storageWrites a k && readBeforeSlotWrite ops a k)) := by
  induction ops generalizing t with
  | nil => simp [readBeforeSlotWrite]
  | cons op rest ih =>
    simp only [List.foldl_cons]
    rw [ih, step_uninitStorageReads, step_storageWrites]
    simp only [readBeforeSlotWrite]
    cases hw : isSlotWriteRec op a k <;>
      cases hr : isSlotRead op a k <;>
      cases hacc : t.storageWrites a k <;>
        simp [hw, hr, hacc]
    exact absurd (not_slotRead_of_slotWriteRec op a k hw) (by simp [hr])

end Tracing

/-- C7 counterexample: on the operation sequence `SetNonce(0); GetNonce(0)`
the claim predicts that the nonce write records address `0` as written, so
the subsequent read is not an uninitialized read; the code's tracer does
not record `SetNonce` (only `CreateAccount`/`CreateContract` and
`SetState` record writes), so the read IS recorded as uninitialized and
the written-account set stays empty. -/
theorem c7_counterexample :
    (Tracing.runOps [.setNonce 0, .getNonce 0]).uninitAccReads 0 = true
    ∧ (Tracing.runOps [.setNonce 0, .getNonce 0]).accWrites 0 = false
    ∧ (Tracing.runOpsClaim [.setNonce 0, .getNonce 0]).uninitAccReads 0 = false
    ∧ (Tracing.runOpsClaim [.setNonce 0, .getNonce 0]).accWrites 0 = true := by
  refine ⟨rfl, rfl, ?_, rfl⟩
  show (Tracing.traceStepClaim (Tracing.traceStepClaim Tracing.emptyTracer
    (.setNonce 0)) (.getNonce 0)).uninitAccReads 0 = false
  rfl

/-- C7 (amended): in the tracer of the `TracingStateDB`, the write
operations that record the written address are the account creations
(`CreateAccount`, `CreateContract`), and `SetState` records the written
(address, slot) pair; `SetNonce`, `SetBalance` and `SetCode` are not
traced. Every account read (`SubBalance`, `AddBalance`, `GetBalance`,
`GetNonce`, `GetCodeHash`, `GetCode`, `GetStorageRoot`) of an address with
no prior recorded account write, and every `GetState` of a slot with no
prior recorded `SetState`, is recorded as an uninitialized read, so the
reported uninitialized-read sets equal exactly the
reads-before-first-recorded-write. -/
theorem c7_tracer_amended (ops : List Tracing.Op) (a : Tracing.Addr)
    (k : Tracing.Slot) :
    (Tracing.runOps ops).accWrites a = Tracing.hasAccWrite ops a
    ∧ (Tracing.runOps ops).uninitAccReads a = Tracing.readBeforeAccWrite ops a
    ∧ (Tracing.runOps ops).storageWrites a k = Tracing.hasSlotWrite ops a k
    ∧ (Tracing.runOps ops).uninitStorageReads a k =
        Tracing.readBeforeSlotWrite ops a k := by
  refine ⟨?_, ?_, ?_, ?_⟩
  · rw [Tracing.runOps, Tracing.runFrom_accWrites]
    rfl
  · rw [Tracing.runOps, Tracing.runFrom_uninitAccReads]
    rfl
  · rw [Tracing.runOps, Tracing.runFrom_storageWrites]
    rfl
  · rw [Tracing.runOps, Tracing.runFrom_uninitStorageReads]
    rfl

namespace Preparer

abbrev Addr := Nat

/-- `TransactionWithContext` (`execution/monitor/state/preparer.go`), as
far as `FilterTxs` consults it: the recipient (`tx.Tx.To()`, `none` for a
contract creation), the recovered sender, the addresses named by the
prestate trace (`tx.Trace.Accounts`), and the block index. The sender
recovery and trace fetch of `getTxsWithContext` happen before the filter
loop and are taken as given. -/
structure TxCtx where
  toAcc : Option Addr
  sender : Addr
  trace : List Addr
  index : Nat
deriving DecidableEq

/-- `isRelevant` (`preparer.go` lines 187-205): a transaction is relevant
iff it is a contract creation, or its sender is tracked, or its recipient
is tracked, or its trace names a tracked account. -/
def isRelevant (tx : TxCtx) (tracked : Addr → Bool) : Bool :=
  match tx.toAcc with
  | none => true
  | some recv => tracked tx.sender || tracked recv || tx.trace.any tracked

/-- The tracked-set growth on admitting a transaction (`FilterTxs` loop
body): add the sender, the recipient when present, and every trace
address other than the block coinbase. -/
def trackTx (coinbase : Addr) (tx : TxCtx) (tracked : Addr → Bool) :
    Addr → Bool :=
  let t1 : Addr → Bool := fun a => if a = tx.sender then true else tracked a
  let t2 : Addr → Bool :=
    match tx.toAcc with
    | some r => fun a => if a = r then true else t1 a
    | none => t1
  tx.trace.foldl
    (fun t acc => if acc ≠ coinbase then (fun a => if a = acc then true else t a)
      else t)
    t2

/-- The reverse-order loop of `FilterTxs`: the argument list is the block
transactions in reverse order; admitted transactions are collected in
iteration order. -/
def filterLoop (coinbase : Addr) : List TxCtx → (Addr → Bool) → List TxCtx
  | [], _ => []
  | tx :: rest, tracked =>
    if isRelevant tx tracked then
      tx :: filterLoop coinbase rest (trackTx coinbase tx tracked)
    else filterLoop coinbase rest tracked

/-- The tracked set after the reverse-order loop finishes. -/
def loopTracked (coinbase : Addr) : List TxCtx → (Addr → Bool) → (Addr → Bool)
  | [], tracked => tracked
  | tx :: rest, tracked =>
    if isRelevant tx tracked then
      loopTracked coinbase rest (trackTx coinbase tx tracked)
    else loopTracked coinbase rest tracked

/-- `Preparer.FilterTxs` (`preparer.go` lines 74-108): start the tracked
set as the monitored accounts, process the transactions in reverse block
order admitting the relevant ones and growing the tracked set, then
reverse the admitted list back into block order. -/
def filterTxs (coinbase : Addr) (monitored : List Addr) (txs : List TxCtx) :
    List TxCtx :=
  let tracked0 : Addr → Bool := fun a => monitored.contains a
  (filterLoop coinbase txs.reverse tracked0).reverse

/-- The tracked-set growth as the claim words it: the sender, the
recipient, and every address in the access list / trace — with no
exception for the coinbase. -/
def trackTxClaim (tx : TxCtx) (tracked : Addr → Bool) : Addr → Bool :=
  let t1 : Addr → Bool := fun a => if a = tx.sender then true else tracked a
  let t2 : Addr → Bool :=
    match tx.toAcc with
    | some r => fun a => if a = r then true else t1 a
    | none => t1
  tx.trace.foldl (fun t acc => (fun a => if a = acc then true else t a)) t2

/-- The claim's filter, written as a right fold: scanning from the last
transaction to the first, admit a transaction iff it is relevant for the
current tracked set, growing the tracked set by sender, recipient and
every trace address on admission; the first component collects the
admitted transactions in block order. -/
def filterTxsClaim (monitored : List Addr) (txs : List TxCtx) : List TxCtx :=
  (txs.foldr
    (fun tx acc =>
      if isRelevant tx acc.2 then (tx :: acc.1, trackTxClaim tx acc.2) else acc)
    ([], fun a => monitored.contains a)).1

/-- The amended filter: the claim's right fold, with the code's
tracked-set growth that skips the block coinbase. -/
def filterTxsAmended (coinbase : Addr) (monitored : List Addr)
    (txs : List TxCtx) : List TxCtx :=
  (txs.foldr
    (fun tx acc =>
      if isRelevant tx acc.2 then (tx :: acc.1, trackTx coinbase tx acc.2)
      else acc)
    ([], fun a => monitored.contains a)).1

theorem foldr_filterLoop (coinbase : Addr) (m : List TxCtx)
    (tracked : Addr → Bool) (acc : List TxCtx) :
    m.reverse.foldr
      (fun tx acc =>
        if isRelevant tx acc.2 then (tx :: acc.1, trackTx coinbase tx acc.2)
        else acc)
      (acc, tracked) =
    ((filterLoop coinbase m tracked).reverse ++ acc,
      loopTracked coinbase m tracked) := by
  induction m generalizing tracked acc with
  | nil => simp [filterLoop, loopTracked]
  | cons tx rest ih =>
    simp only [List.reverse_cons, List.foldr_append, List.foldr_cons,
      List.foldr_nil]
    by_cases hr : isRelevant tx tracked
    · simp only [hr, if_pos]
      rw [ih]
      simp [filterLoop, loopTracked, hr]
    · simp only [hr, if_neg]
      rw [ih]
      simp [filterLoop, loopTracked, hr]

end Preparer

/-- C5 counterexample: coinbase `9`, monitored set `{5}`, block
`[tx0, tx1]` with `tx0 = {to 7, sender 6, trace [9]}` and
`tx1 = {to 5, sender 8, trace [9]}`. Scanning in reverse, `tx1` is
admitted (recipient monitored). Under the claim's tracked-set growth the
coinbase `9` from `tx1`'s trace becomes tracked, so `tx0` (trace names
`9`) is admitted too; the code skips the coinbase when growing the
tracked set, so `tx0` is not admitted. -/
theorem c5_counterexample :
    Preparer.filterTxs 9 [5]
      [Preparer.TxCtx.mk (some 7) 6 [9] 0, Preparer.TxCtx.mk (some 5) 8 [9] 1] ≠
    Preparer.filterTxsClaim [5]
      [Preparer.TxCtx.mk (some 7) 6 [9] 0, Preparer.TxCtx.mk (some 5) 8 [9] 1] := by
  decide

/-- C5 (amended): `FilterTxs` starts the tracked set as the monitored
accounts and scans the transactions in reverse block order, admitting a
transaction iff it is a contract creation, its sender is tracked, its
recipient is tracked, or its trace names a tracked account; whenever a
transaction is admitted, its sender, its recipient, and every address in
its trace EXCEPT the block coinbase are added to the tracked set, and the
returned list is the admitted transactions in original block order. The
first conjunct equates the code's loop with the right-fold formulation of
that scan; the second spells out the admission criterion. -/
theorem c5_filter_txs_amended (coinbase : Preparer.Addr)
    (monitored : List Preparer.Addr) (txs : List Preparer.TxCtx) :
    Preparer.filterTxs coinbase monitored txs =
      Preparer.filterTxsAmended coinbase monitored txs
    ∧ (∀ tx (tracked : Preparer.Addr → Bool),
        Preparer.isRelevant tx tracked = true ↔
          (tx.toAcc = none ∨ tracked tx.sender = true ∨
            (∃ r, tx.toAcc = some r ∧ tracked r = true) ∨
            (∃ a ∈ tx.trace, tracked a = true))) := by
  constructor
  · rw [Preparer.filterTxs, Preparer.filterTxsAmended]
    have h := Preparer.foldr_filterLoop coinbase txs.reverse
      (fun a => monitored.contains a) []
    rw [List.reverse_reverse] at h
    rw [h]
    simp
  · intro tx tracked
    cases hto : tx.toAcc with
    | none => simp [Preparer.isRelevant, hto]
    | some r =>
      simp [Preparer.isRelevant, hto, Bool.or_eq_true, List.any_eq_true,
        or_assoc]

namespace MemDb

/-- A reference to a Go byte slice. -/
abbrev Ref := Nat

/-- Byte-slice contents. -/
abbrev Bytes := List Nat

/-- The slice heap: the contents of every slice reference, and the next
fresh reference. Mutating a Go slice in place is `write`; allocating a
fresh slice (`make`) is `alloc`. -/
structure Heap where
  data : Ref → Bytes
  next : Ref

def Heap.write (m : Heap) (r : Ref) (b : Bytes) : Heap :=
  { m with data := fun x => if x = r then b else m.data x }

def Heap.alloc (m : Heap) (b : Bytes) : Heap × Ref :=
  ({ data := fun x => if x = m.next then b else m.data x, next := m.next + 1 },
    m.next)

/-- `storage.CopyBytes`: allocate a fresh slice carrying the same
contents. (The Go function returns nil for a nil input without
allocating; a nil and an empty fresh slice have the same contents, so the
distinction is dropped.) -/
def copyBytes (m : Heap) (r : Ref) : Heap × Ref :=
  m.alloc (m.data r)

inductive DbErr
  | dbClosed
  | keyNotFound
deriving DecidableEq

/-- The in-memory `Database` (`storage/mem/memdb.go`): a map from key
contents to the stored value slice, or `none` after `Close`. Go converts
the key slice to `string(key)` at every call, capturing its contents, so
keys are carried as contents. -/
structure Database where
  table : Option (Bytes → Option Ref)

/-- `Database.Put`: fail when closed; otherwise store
`CopyBytes(value)` under the key contents. -/
def Database.put (db : Database) (m : Heap) (key : Bytes) (val : Ref) :
    Except DbErr (Database × Heap) :=
  match db.table with
  | none => .error .dbClosed
  | some tbl =>
    let copied := copyBytes m val
    .ok (⟨some (fun k => if k = key then some copied.2 else tbl k)⟩, copied.1)

/-- `Database.Get`: fail when closed; fail with `keyNotFound` for a
missing key; otherwise return `CopyBytes` of the stored slice. -/
def Database.get (db : Database) (m : Heap) (key : Bytes) :
    Except DbErr (Heap × Ref) :=
  match db.table with
  | none => .error .dbClosed
  | some tbl =>
    match tbl key with
    | none => .error .keyNotFound
    | some r => .ok (copyBytes m r)

end MemDb

/-- C10: `Put` stores a copy of the value slice and `Get` returns a copy
of the stored slice: after `Put(key, val)`, overwriting the caller's
value slice in place does not change what `Get(key)` returns (it still
returns the contents `val` had at `Put` time), and overwriting the slice
returned by `Get` does not change what a further `Get(key)` returns. -/
theorem c10_memdb_copy_semantics (db : MemDb.Database) (m : MemDb.Heap)
    (key : MemDb.Bytes) (val : MemDb.Ref) (hval : val < m.next)
    (db1 : MemDb.Database) (m1 : MemDb.Heap)
    (hput : db.put m key val = .ok (db1, m1)) (junk junk2 : MemDb.Bytes) :
    ∃ m2 r2, db1.get (m1.write val junk) key = .ok (m2, r2)
      ∧ m2.data r2 = m.data val
      ∧ ∃ m3 r3, db1.get (m2.write r2 junk2) key = .ok (m3, r3)
        ∧ m3.data r3 = m.data val := by
  cases htbl : db.table with
  | none => simp [MemDb.Database.put, htbl] at hput
  | some tbl =>
    have hdb1 : db1 = ⟨some (fun k => if k = key then some m.next else tbl k)⟩ ∧
        m1 = (MemDb.copyBytes m val).1 := by
      have := hput
      simp [MemDb.Database.put, htbl, MemDb.copyBytes, MemDb.Heap.alloc] at this
      exact ⟨this.1.symm, this.2.symm⟩
    obtain ⟨hdb1, hm1⟩ := hdb1
    subst hdb1 hm1
    have hne : val ≠ m.next := Nat.ne_of_lt hval
    simp only [MemDb.Database.get, MemDb.copyBytes, MemDb.Heap.alloc,
      MemDb.Heap.write, if_pos, Except.ok.injEq, Prod.mk.injEq]
    refine ⟨_, _, ⟨rfl, rfl⟩, ?_, _, _, ⟨rfl, rfl⟩, ?_⟩
    · simp [Ne.symm hne]
    · simp [Ne.symm hne]

/-- A concrete slice heap for the C10 witness: one allocated slice `0`
holding `[7]`. -/
def c10HeapW : MemDb.Heap := ⟨fun r => if r = 0 then [7] else [], 1⟩

/-- A concrete open, empty database for the C10 witness. -/
def c10DbW : MemDb.Database := ⟨some (fun _ => none)⟩

/-- The database after `put [1, 2] 0` on `c10DbW`. -/
def c10Db1W : MemDb.Database := ⟨some (fun k => if k = [1, 2] then some 1 else none)⟩

/-- The heap after `put [1, 2] 0` on `c10HeapW`: the value slice has been
copied into the fresh slice `1`. -/
def c10Heap1W : MemDb.Heap :=
  ⟨fun x => if x = 1 then [7] else (if x = 0 then [7] else []), 2⟩

/-- Witness for C10: after storing slice `0` (contents `[7]`) under key
`[1, 2]` and overwriting that slice with `[9]`, `get` still returns
`[7]`, and overwriting the returned copy with `[8]` leaves a further
`get` returning `[7]`. -/
theorem c10_witness :
    ∃ m2 r2, c10Db1W.get (c10Heap1W.write 0 [9]) [1, 2] = .ok (m2, r2)
      ∧ m2.data r2 = c10HeapW.data 0
      ∧ ∃ m3 r3, c10Db1W.get (m2.write r2 [8]) [1, 2] = .ok (m3, r3)
        ∧ m3.data r3 = c10HeapW.data 0 :=
  c10_memdb_copy_semantics c10DbW c10HeapW [1, 2] 0 (by decide) c10Db1W
    c10Heap1W rfl [9] [8]

namespace EthStore

/-- Key bytes. -/
abbrev Bytes := List Nat

/-- `sparsethPrefix` (`ethstore/schema.go` line 13): the ASCII bytes of
the string "se:". -/
def sparsethPfx : Bytes := [0x73, 0x65, 0x3a]

/-- `prefix(s)`: the sparseth prefix followed by `s`. -/
def mkPfx (s : Bytes) : Bytes := sparsethPfx ++ s

/-- `logPrefix` in `schema.go`: "se:" ++ "log:". -/
def logPfx : Bytes := mkPfx [0x6c, 0x6f, 0x67, 0x3a]

/-- `headerPrefix`: "se:" ++ "header:". -/
def headerPfx : Bytes := mkPfx [0x68, 0x65, 0x61, 0x64, 0x65, 0x72, 0x3a]

/-- `encodeNumber`: the 8-byte big-endian encoding of a uint64. -/
def encodeNumber (num : Nat) : Bytes :=
  [num / 2 ^ 56 % 256, num / 2 ^ 48 % 256, num / 2 ^ 40 % 256,
    num / 2 ^ 32 % 256, num / 2 ^ 24 % 256, num / 2 ^ 16 % 256,
    num / 2 ^ 8 % 256, num % 256]

/-- `logKey` (`schema.go` lines 27-35): `se:log:<txHash>:<logIndex>`. -/
def logKey (txHash : Bytes) (logIndex : Nat) : Bytes :=
  logPfx ++ txHash ++ [0x3a] ++ encodeNumber logIndex

/-- `headerHashKey` (`schema.go` lines 41-47): `se:header:<hash>`. -/
def headerHashKey (hash : Bytes) : Bytes :=
  headerPfx ++ hash

/-- `headerNumberKey` (`schema.go` lines 53-60): `se:header::<num>`. -/
def headerNumberKey (num : Nat) : Bytes :=
  headerPfx ++ [0x3a] ++ encodeNumber num

/-- Lowercase-hex ASCII digit. -/
def hexDigit (n : Nat) : Nat := if n < 10 then 0x30 + n else 0x61 + (n - 10)

/-- Lowercase hex of a byte string, two digits per byte, as
`common.Hash.Hex` produces after its "0x". -/
def hexOfBytes (bs : Bytes) : Bytes :=
  bs.foldr (fun b acc => hexDigit (b / 16 % 16) :: hexDigit (b % 16) :: acc) []

/-- `common.Hash.Hex()`: "0x" followed by the hex digits. -/
def hashHex (h : Bytes) : Bytes := [0x30, 0x78] ++ hexOfBytes h

/-- ASCII decimal digits of a natural number, as `%d` formats it. -/
def decDigits (n : Nat) : Bytes :=
  if n < 10 then [0x30 + n] else decDigits (n / 10) ++ [0x30 + n % 10]
decreasing_by
  exact Nat.div_lt_self (by omega) (by omega)

/-- The `logKey` of the event store itself (`ethstore/event_store.go`
lines 89-92): `fmt.Sprintf` of `log`, `txHash.Hex()` and the decimal
index, joined by colons — `log:0x<hex>:<dec>`, carrying no `se:`
prefix. -/
def eventStoreLogKey (txHash : Bytes) (logIndex : Nat) : Bytes :=
  [0x6c, 0x6f, 0x67] ++ [0x3a] ++ hashHex txHash ++ [0x3a] ++ decDigits logIndex

/-- The ASCII bytes of "sp:", the prefix the claim asserts. -/
def spPfx : Bytes := [0x73, 0x70, 0x3a]

end EthStore

/-- C9 counterexample: the header-by-hash key of the zero hash does not
begin with `sp:` (its first three bytes are `se:`), and the event store's
log key for the zero transaction hash at index 0 does not begin with
`sp:` either (its first three bytes are `log`). -/
theorem c9_counterexample :
    (EthStore.headerHashKey (List.replicate 32 0)).take 3 ≠ EthStore.spPfx
    ∧ (EthStore.eventStoreLogKey (List.replicate 32 0) 0).take 3 ≠
        EthStore.spPfx := by
  refine ⟨?_, ?_⟩ <;> decide

/-- C9 (amended): the reserved prefix of the key schema is `se:`, not
`sp:`: every key the header store writes or reads (header-by-hash and
header-by-number) and every key built by the schema's `logKey` begins
with the three bytes `se:`; the event store's own `logKey`, however,
builds keys beginning with `log:` and carries no `se:` prefix at all, so
only the header keys live under the reserved prefix. -/
theorem c9_key_prefixes_amended (hash txHash : EthStore.Bytes) (num idx : Nat) :
    (EthStore.headerHashKey hash).take 3 = EthStore.sparsethPfx
    ∧ (EthStore.headerNumberKey num).take 3 = EthStore.sparsethPfx
    ∧ (EthStore.logKey txHash idx).take 3 = EthStore.sparsethPfx
    ∧ (EthStore.eventStoreLogKey txHash idx).take 4 = [0x6c, 0x6f, 0x67, 0x3a] :=
  ⟨rfl, rfl, rfl, rfl⟩

namespace Mpt

/-- Raw byte strings (RLP data, keys, hashes). -/
abbrev Bytes := List Nat

/-- An RLP item: a byte string or a list of items, as go-ethereum's
`rlp.DecodeBytes` produces when decoding into `[]interface{}`. -/
inductive RlpItem
  | str (bytes : Bytes)
  | list (items : List RlpItem)

/-- Big-endian interpretation of length bytes. -/
def beLen (bs : Bytes) : Nat := bs.foldl (fun acc b => acc * 256 + b) 0

mutual

/-- Parse one RLP item from the front of the input, returning it and the
remaining bytes. Models the go-ethereum `rlp` package grammar: single
bytes below `0x80`, short and long strings, short and long lists. The
fuel argument strictly decreases on every recursive call; callers supply
more fuel than any input can consume. -/
def parseRlp : Nat → Bytes → Option (RlpItem × Bytes)
  | 0, _ => none
  | _ + 1, [] => none
  | fuel + 1, b :: rest =>
    if b < 0x80 then some (.str [b], rest)
    else if b ≤ 0xb7 then
      let n := b - 0x80
      if n ≤ rest.length then some (.str (rest.take n), rest.drop n) else none
    else if b ≤ 0xbf then
      let ll := b - 0xb7
      if ll ≤ rest.length then
        let n := beLen (rest.take ll)
        let rest2 := rest.drop ll
        if n ≤ rest2.length then some (.str (rest2.take n), rest2.drop n)
        else none
      else none
    else if b ≤ 0xf7 then
      let n := b - 0xc0
      if n ≤ rest.length then
        match parseItems fuel (rest.take n) with
        | some items => some (.list items, rest.drop n)
        | none => none
      else none
    else
      let ll := b - 0xf7
      if ll ≤ rest.length then
        let n := beLen (rest.take ll)
        let rest2 := rest.drop ll
        if n ≤ rest2.length then
          match parseItems fuel (rest2.take n) with
          | some items => some (.list items, rest2.drop n)
          | none => none
        else none
      else none

/-- Parse a sequence of RLP items until the input is exhausted. -/
def parseItems : Nat → Bytes → Option (List RlpItem)
  | 0, _ => none
  | _ + 1, [] => some []
  | fuel + 1, bs =>
    match parseRlp fuel bs with
    | some (item, rest) =>
      match parseItems fuel rest with
      | some items => some (item :: items)
      | none => none
    | none => none

end

/-- `rlp.DecodeBytes(rlpData, &decoded)` into `[]interface{}`: the input
must encode exactly one item with nothing trailing, and that item must be
a list; its elements are returned. -/
def decodeToList (bs : Bytes) : Option (List RlpItem) :=
  match parseRlp (2 * bs.length + 2) bs with
  | some (.list items, []) => some items
  | _ => none

/-- A decoded trie node (`execution/mpt/trienode/node.go`): a leaf with
its expanded path and value, an extension with its expanded path and
child reference, or a branch with sixteen children and a value. -/
inductive TrieNode
  | leaf (path : Bytes) (value : Bytes)
  | ext (path : Bytes) (next : Bytes)
  | branch (children : List Bytes) (value : Bytes)
deriving DecidableEq

/-- Failure cases of `DecodeNode` (`trienode`, the node decoder document):
RLP decode failure, non-string path or data of a short node, a non-string
child of a full node, the unchecked type assertion on the full node value
(a runtime panic in the Go code), and a node of invalid length. -/
inductive DecodeErr
  | rlpDecodeFailed
  | invalidShortNodePath
  | invalidShortNodeData
  | invalidFullNodeData
  | fullNodeValuePanic
  | invalidNodeLength (n : Nat)
deriving DecidableEq

/-- Expand packed path bytes to nibbles (high nibble first). -/
def bytesToNibbles (bs : Bytes) : Bytes :=
  bs.foldr (fun b acc => b / 16 :: b % 16 :: acc) []

/-- `decodeCompactPath`: decode the hex-prefix encoding — the high nibble
of the first byte holds the leaf flag (bit 1) and the odd-length flag
(bit 0); an odd path starts in the low nibble of the first byte. Returns
the leaf flag and the expanded nibbles. -/
def decodeCompactPath (enc : Bytes) : Bool × Bytes :=
  match enc with
  | [] => (false, [])
  | b0 :: rest =>
    let typeAndParity := b0 / 16
    let isLf := typeAndParity / 2 % 2 == 1
    let odd := typeAndParity % 2 == 1
    (isLf, (if odd then [b0 % 16] else []) ++ bytesToNibbles rest)

/-- `decodeShortNode`: both elements must be byte strings; the compact
path decides between leaf and extension. -/
def decodeShortNode (decoded : List RlpItem) : Except DecodeErr TrieNode :=
  match decoded with
  | [.str compactPath, .str data] =>
    let lp := decodeCompactPath compactPath
    if lp.1 then .ok (.leaf lp.2 data) else .ok (.ext lp.2 data)
  | [.list _, _] => .error .invalidShortNodePath
  | [_, .list _] => .error .invalidShortNodeData
  | _ => .error .invalidShortNodePath

/-- Extract byte strings from items; `none` when any item is a list. -/
def getStrs : List RlpItem → Option (List Bytes)
  | [] => some []
  | .str b :: rest => (getStrs rest).map (fun l => b :: l)
  | .list _ :: _ => none

/-- `decodeFullNode`: the sixteen children must be byte strings (checked
type assertions); the seventeenth element is read with an unchecked
assertion, so a list there is a Go runtime panic, modelled as
`fullNodeValuePanic`. -/
def decodeFullNode (decoded : List RlpItem) : Except DecodeErr TrieNode :=
  match getStrs (decoded.take 16) with
  | none => .error .invalidFullNodeData
  | some children =>
    match decoded.drop 16 with
    | [.str v] => .ok (.branch children v)
    | _ => .error .fullNodeValuePanic

/-- `DecodeNode`: RLP-decode into items; two items make a short node,
seventeen a full node, anything else is invalid. -/
def decodeNode (bs : Bytes) : Except DecodeErr TrieNode :=
  match decodeToList bs with
  | none => .error .rlpDecodeFailed
  | some decoded =>
    if decoded.length = 2 then decodeShortNode decoded
    else if decoded.length = 17 then decodeFullNode decoded
    else .error (.invalidNodeLength decoded.length)

/-- Failure cases of `TrieNode.Validate` (`trienode/node.go`): a short
node path that is not a prefix of the remaining key path, a leaf that
leaves key nibbles unconsumed, and an empty branch child at the next
nibble. -/
inductive ValErr
  | pathMismatch
  | leafRemaining
  | missingBranch (index : Nat)
deriving DecidableEq

/-- `Validate` (`trienode/node.go`): a leaf requires its path to be a
prefix of the remaining key path with nothing left over; an extension
requires the prefix only; a branch with remaining path requires a
non-empty child at the next nibble. -/
def TrieNode.validate : TrieNode → Bytes → Except ValErr Unit
  | .leaf p _, path =>
    if ¬ p.isPrefixOf path then .error .pathMismatch
    else if (path.drop p.length).length ≠ 0 then .error .leafRemaining
    else .ok ()
  | .ext p _, path =>
    if ¬ p.isPrefixOf path then .error .pathMismatch else .ok ()
  | .branch children _, path =>
    match path with
    | [] => .ok ()
    | index :: _ =>
      if (children.getD index []).length = 0 then .error (.missingBranch index)
      else .ok ()

/-- `keyToNibbles` (`proof.go` lines 91-99). -/
def keyToNibbles (key : Bytes) : Bytes :=
  key.foldr (fun b acc => b / 16 :: b % 16 :: acc) []

/-- `resolveHash` (`proof.go` lines 102-108): a 32-byte reference is the
hash itself; a shorter embedded node is hashed by value. -/
def resolveHash (keccak : Bytes → Bytes) (data : Bytes) : Bytes :=
  if data.length = 32 then data else keccak data

/-- Failure cases of `verifyProof` (`proof.go` lines 51-87), plus the
out-of-range nibble index of a branch reached with no nibbles left, which
is a Go runtime panic at `nibbles[0]`. -/
inductive ProofErr
  | hashMismatch (i : Nat)
  | decodeFailed (e : DecodeErr)
  | invalidNode (e : ValErr)
  | branchIndexPanic
  | incompleteProof
deriving DecidableEq

/-- The loop of `verifyProof`: for each proof node in order, check the
keccak hash against the expected reference (skipped for embedded nodes
shorter than 32 bytes), decode it, validate it against the remaining
nibbles, and then return the value of a leaf, follow an extension, or
descend into the branch child at the next nibble. An exhausted node list
is an incomplete proof. keccak256 is the go-ethereum crypto library,
carried as the parameter `keccak`. -/
def verifyLoop (keccak : Bytes → Bytes) :
    Bytes → Bytes → List Bytes → Nat → Except ProofErr Bytes
  | _, _, [], _ => .error .incompleteProof
  | wantHash, nibbles, rlpNode :: restNodes, i =>
    let nodeHash := keccak rlpNode
    if 32 ≤ rlpNode.length ∧ wantHash ≠ nodeHash then .error (.hashMismatch i)
    else
      match decodeNode rlpNode with
      | .error e => .error (.decodeFailed e)
      | .ok node =>
        match node.validate nibbles with
        | .error e => .error (.invalidNode e)
        | .ok () =>
          match node with
          | .leaf _ v => .ok v
          | .ext p nxt =>
            verifyLoop keccak (resolveHash keccak nxt) (nibbles.drop p.length)
              restNodes (i + 1)
          | .branch children _ =>
            match nibbles with
            | [] => .error .branchIndexPanic
            | index :: restNibbles =>
              verifyLoop keccak (resolveHash keccak (children.getD index []))
                restNibbles restNodes (i + 1)

/-- `verifyProof` (`proof.go`): walk the proof nodes from the root hash
over the nibbles of the key. -/
def verifyProof (keccak : Bytes → Bytes) (rootHash key : Bytes)
    (proofNodes : List Bytes) : Except ProofErr Bytes :=
  verifyLoop keccak rootHash (keyToNibbles key) proofNodes 0

/-- `rlp.DecodeBytes(data, &val)` for `val []byte`: the input must encode
exactly one byte string with nothing trailing. -/
def decodeRlpString (data : Bytes) : Option Bytes :=
  match parseRlp (2 * data.length + 2) data with
  | some (.str v, []) => some v
  | _ => none

/-- Failure cases of `VerifyStorageProof`. -/
inductive StorageProofErr
  | proofFailed (e : ProofErr)
  | decodeValueFailed
deriving DecidableEq

/-- `VerifyStorageProof` (`proof.go` lines 33-45): verify the proof for
the (pre-hashed) slot key against the storage root and RLP-decode the
returned value. There is no special case for any storage root. -/
def verifyStorageProof (keccak : Bytes → Bytes) (storageRoot slotKey : Bytes)
    (proofNodes : List Bytes) : Except StorageProofErr Bytes :=
  match verifyProof keccak storageRoot slotKey proofNodes with
  | .error e => .error (.proofFailed e)
  | .ok data =>
    match decodeRlpString data with
    | none => .error .decodeValueFailed
    | some v => .ok v

/-- `types.EmptyRootHash`, the root of the empty trie:
keccak256(rlp("")). -/
def emptyTrieRoot : Bytes :=
  [0x56, 0xe8, 0x1f, 0x17, 0x1b, 0xcc, 0x55, 0xa6, 0xff, 0x83, 0x45, 0xe6,
   0x92, 0xc0, 0xf8, 0x6e, 0x5b, 0x48, 0xe0, 0x1b, 0x99, 0x6c, 0xad, 0xc0,
   0x01, 0x62, 0x2f, 0xb5, 0xe3, 0x63, 0xb4, 0x21]

end Mpt

/-- C1: the proof verifier REJECTS valid exclusion proofs instead of
returning absent. A leaf whose path diverges from the remaining key
nibbles makes `LeafNode.Validate` fail with a path mismatch, and a branch
whose child slot for the next nibble is empty makes `BranchNode.Validate`
fail with a missing branch; in both cases `verifyProof` returns an error,
for every hash function and root (the nodes are shorter than 32 bytes, so
the hash check is skipped). The key `0x12` has nibbles `[1, 2]`; the
first node is a leaf with path nibbles `[3, 4]`, the second a branch with
all sixteen children empty. The repository's own test expects such an
exclusion to verify as a non-existent account with no error. -/
theorem c1_mpt_exclusion_returns_error :
    (∀ (keccak : Mpt.Bytes → Mpt.Bytes) (root : Mpt.Bytes),
      Mpt.verifyProof keccak root [0x12] [[0xc4, 0x82, 0x20, 0x34, 0x76]] =
        .error (.invalidNode .pathMismatch))
    ∧ (∀ (keccak : Mpt.Bytes → Mpt.Bytes) (root : Mpt.Bytes),
      Mpt.verifyProof keccak root [0x12] [0xd1 :: List.replicate 17 0x80] =
        .error (.invalidNode (.missingBranch 1))) :=
  ⟨fun _ _ => rfl, fun _ _ => rfl⟩

/-- C6 counterexample: with the storage root equal to the empty trie root
and an empty proof node list, `VerifyStorageProof` does not return absent
without consulting the proof — it fails with an incomplete-proof error,
because the code contains no empty-trie-root special case. -/
theorem c6_counterexample :
    Mpt.verifyStorageProof (fun _ => []) Mpt.emptyTrieRoot
      (List.replicate 32 0) [] = .error (.proofFailed .incompleteProof) := rfl

/-- C6 (amended): `VerifyStorageProof` has no empty-trie-root shortcut:
for every hash function, every storage root — the empty trie root
included — and every slot key, an empty proof fails with an
incomplete-proof error; on inclusion the RLP-wrapped value at the leaf is
decoded (shown at a one-leaf proof for the key `0x12`, whose leaf holds
the RLP string `0x07`). The trie key is keccak256 of the slot, computed
by the caller (`accountProvider.getSlotAtBlock`). -/
theorem c6_storage_proof_amended :
    (∀ (keccak : Mpt.Bytes → Mpt.Bytes) (storageRoot slotKey : Mpt.Bytes),
      Mpt.verifyStorageProof keccak storageRoot slotKey [] =
        .error (.proofFailed .incompleteProof))
    ∧ (∀ (keccak : Mpt.Bytes → Mpt.Bytes) (storageRoot : Mpt.Bytes),
      Mpt.verifyStorageProof keccak storageRoot [0x12]
        [[0xc4, 0x82, 0x20, 0x12, 0x07]] = .ok [0x07]) :=
  ⟨fun _ _ _ => rfl, fun _ _ => rfl⟩
